import Mathlib

/-!
Verification model of the zmongo_retriever core access layer: key
sanitization/restoration, the SafeResult envelope, the TTL cache with
collection-scoped invalidation, and the three insertion tiers
(default / fast / buffered) with bulk-write and limit-bounded aggregation.

The repository ships only documentation for the `ZMongo` class; the
implementation itself is not present, so every definition below is a model
built from the specification's own wording (each such definition is marked
`Modelled from the spec:`), with concrete constants (the underscore reserved
prefix, the disambiguation character, the embedded keymap field) taken from
the repository documentation.
-/

namespace ZMongo

/-- Modelled from the spec: a JSON-representable value, including nested
documents and sequences (spec section 3, Document). The ZMongo implementation
storing these values is absent from the repository sources. -/
inductive Value where
  | vNull : Value
  | vBool (b : Bool) : Value
  | vInt (n : Int) : Value
  | vStr (s : String) : Value
  | vArr (items : List Value) : Value
  | vDoc (fields : List (String × Value)) : Value
deriving Repr

mutual

/-- Structural equality test on values. -/
def beqV : Value → Value → Bool
  | .vNull, .vNull => true
  | .vBool a, .vBool b => a == b
  | .vInt a, .vInt b => a == b
  | .vStr a, .vStr b => a == b
  | .vArr xs, .vArr ys => beqVL xs ys
  | .vDoc xs, .vDoc ys => beqVF xs ys
  | _, _ => false

/-- Structural equality test on value lists. -/
def beqVL : List Value → List Value → Bool
  | [], [] => true
  | x :: xs, y :: ys => beqV x y && beqVL xs ys
  | _, _ => false

/-- Structural equality test on field lists. -/
def beqVF : List (String × Value) → List (String × Value) → Bool
  | [], [] => true
  | (k, v) :: xs, (k', v') :: ys => k == k' && beqV v v' && beqVF xs ys
  | _, _ => false

end

mutual

theorem beqV_refl : ∀ v : Value, beqV v v = true
  | .vNull => rfl
  | .vBool b => by simp [beqV]
  | .vInt n => by simp [beqV]
  | .vStr s => by simp [beqV]
  | .vArr xs => by simp [beqV, beqVL_refl xs]
  | .vDoc xs => by simp [beqV, beqVF_refl xs]

theorem beqVL_refl : ∀ xs : List Value, beqVL xs xs = true
  | [] => rfl
  | x :: xs => by simp [beqVL, beqV_refl x, beqVL_refl xs]

theorem beqVF_refl : ∀ xs : List (String × Value), beqVF xs xs = true
  | [] => rfl
  | (k, v) :: xs => by simp [beqVF, beqV_refl v, beqVF_refl xs]

end

/-- A document: an ordered mapping from field names to values. -/
abbrev Doc := List (String × Value)

/-- A point query / filter: field-equality pairs. -/
abbrev Query := List (String × Value)

/-- First-match association-list lookup. -/
def alookup {α β : Type} [DecidableEq α] : List (α × β) → α → Option β
  | [], _ => none
  | (a, b) :: rest, x => if a = x then some b else alookup rest x

/-- The reserved prefix character of field names MongoDB mishandles. -/
def reservedChar : Char := '_'

/-- The fixed disambiguation character prepended to build safe names. -/
def disChar : Char := 'u'

/-- The reserved internally-named field holding the persisted keymap. -/
def keymapField : String := "__keymap"

/-- Does a field name begin with the reserved prefix character? -/
def isReserved (s : String) : Bool :=
  match s.data with
  | [] => false
  | c :: _ => c = reservedChar

/-- Prepend the disambiguation character to a name. -/
def prependDis (s : String) : String := ⟨disChar :: s.data⟩

theorem prependDis_length (s : String) : (prependDis s).length = s.length + 1 := by
  cases s
  rfl

/-- Counting-decrease lemma used for the termination of the renaming loop. -/
theorem countP_lt_of_mem {α : Type} (l : List α) (p q : α → Bool) (a : α)
    (ha : a ∈ l) (hpa : p a = false) (hqa : q a = true)
    (himp : ∀ x, p x = true → q x = true) :
    l.countP p < l.countP q := by
  induction l with
  | nil => cases ha
  | cons b t ih =>
    rcases List.mem_cons.mp ha with hb | ht
    · subst hb
      rw [List.countP_cons_of_neg p t (by simp [hpa]), List.countP_cons_of_pos q t hqa]
      have : t.countP p ≤ t.countP q := List.countP_mono_left (fun x _ => himp x)
      omega
    · have h1 : t.countP p < t.countP q := ih ht
      by_cases hpb : p b = true
      · rw [List.countP_cons_of_pos p t hpb, List.countP_cons_of_pos q t (himp b hpb)]
        omega
      · rw [List.countP_cons_of_neg p t (by simp [hpb])]
        by_cases hqb : q b = true
        · rw [List.countP_cons_of_pos q t hqb]; omega
        · rw [List.countP_cons_of_neg q t (by simp [hqb])]; omega

/-- Modelled from the spec: the collision-avoidance loop of the key
sanitizer (`_sanitize_dict` in the documentation), absent from the sources:
while the candidate name collides with a taken name, prepend the
disambiguation character again. -/
def freshName (taken : List String) (cand : String) : String :=
  if cand ∈ taken then freshName taken (prependDis cand) else cand
termination_by taken.countP (fun s => decide (cand.length ≤ s.length))
decreasing_by
  apply countP_lt_of_mem taken _ _ cand
  · assumption
  · have := prependDis_length cand
    simp only [decide_eq_false_iff_not]
    omega
  · simp
  · intro x hx
    have := prependDis_length cand
    simp only [decide_eq_true_eq] at hx ⊢
    omega

theorem freshName_not_mem (taken : List String) (cand : String) :
    freshName taken cand ∉ taken := by
  induction cand using freshName.induct taken with
  | case1 cand hmem ih =>
    rw [freshName, if_pos hmem]
    exact ih
  | case2 cand hmem =>
    rw [freshName, if_neg hmem]
    exact hmem

theorem freshName_head (taken : List String) (cand : String) :
    (freshName taken cand).data.head? = cand.data.head? ∨
    (freshName taken cand).data.head? = some disChar := by
  induction cand using freshName.induct taken with
  | case1 cand hmem ih =>
    rw [freshName, if_pos hmem]
    rcases ih with h | h
    · right; rw [h]; simp [prependDis]
    · right; exact h
  | case2 cand hmem =>
    rw [freshName, if_neg hmem]
    left; rfl

theorem alookup_eq_none {α β : Type} [DecidableEq α] (l : List (α × β)) (x : α)
    (h : x ∉ l.map Prod.fst) : alookup l x = none := by
  induction l with
  | nil => rfl
  | cons e rest ih =>
    simp only [List.map_cons, List.mem_cons] at h
    push_neg at h
    rw [alookup, if_neg (fun hh => h.1 hh.symm)]
    exact ih h.2

theorem alookup_append_of_none {α β : Type} [DecidableEq α]
    (l₁ l₂ : List (α × β)) (x : α) (h : alookup l₁ x = none) :
    alookup (l₁ ++ l₂) x = alookup l₂ x := by
  induction l₁ with
  | nil => rfl
  | cons e rest ih =>
    rw [alookup] at h
    by_cases he : e.1 = x
    · rw [if_pos he] at h; cases h
    · rw [List.cons_append, alookup]
      rw [if_neg he] at h ⊢
      exact ih h

/-- Modelled from the spec: `sanitize` over the field list (`_sanitize_dict`
in the documentation, implementation absent from the sources). For every
top-level field whose name begins with the reserved prefix, a candidate safe
name is generated by prepending the disambiguation character, repeated until
it collides with no existing field name (original or already renamed); the
keymap records safe name to original name. -/
def sanitizeFields : List String → List (String × Value) →
    List (String × Value) × List (String × String)
  | _, [] => ([], [])
  | taken, (k, v) :: rest =>
    if isReserved k then
      let safe := freshName taken (prependDis k)
      let out := sanitizeFields (safe :: taken) rest
      ((safe, v) :: out.1, (safe, k) :: out.2)
    else
      let out := sanitizeFields taken rest
      ((k, v) :: out.1, out.2)

/-- Modelled from the spec: `sanitize(document) -> (safeDocument, keymap)`. -/
def sanitize (d : Doc) : Doc × List (String × String) :=
  sanitizeFields (d.map Prod.fst) d

/-- Encode a keymap as a storable value. -/
def encodeKeymap (km : List (String × String)) : Value :=
  .vDoc (km.map (fun e => (e.1, .vStr e.2)))

/-- Decode a stored keymap value. -/
def decodeKeymap : Value → List (String × String)
  | .vDoc fs => fs.filterMap (fun e =>
      match e.2 with
      | .vStr o => some (e.1, o)
      | _ => none)
  | _ => []

/-- Modelled from the spec: the sanitized document with the keymap persisted
alongside it as the reserved, internally-named field, so restoration survives
process restarts; the keymap only contains entries for fields that were
actually renamed, and is stored only when some field was renamed. -/
def sanitizeDoc (d : Doc) : Doc :=
  if (sanitize d).2.isEmpty then (sanitize d).1
  else (sanitize d).1 ++ [(keymapField, encodeKeymap (sanitize d).2)]

/-- Rename one field back to its original name through the keymap. -/
def restoreEntry (km : List (String × String)) (f : String × Value) :
    String × Value :=
  match alookup km f.1 with
  | some orig => (orig, f.2)
  | none => f

/-- Modelled from the spec: `restore(document, keymap) -> document`: for each
keymap entry, move the value from the safe name back to the original name,
then remove the keymap field itself. -/
def restore (d : Doc) (km : List (String × String)) : Doc :=
  (d.filter (fun f => f.1 ≠ keymapField)).map (restoreEntry km)

/-- Modelled from the spec: restoration as applied on the read path: the
keymap is read back from the reserved field embedded in the stored document. -/
def restoreDoc (d : Doc) : Doc :=
  match alookup d keymapField with
  | none => d
  | some kv => restore d (decodeKeymap kv)

/-- A well-formed mapping document: duplicate-free field names, none of which
is the reserved internal keymap field. -/
def wellFormedDoc (d : Doc) : Prop :=
  (d.map Prod.fst).Nodup ∧ keymapField ∉ d.map Prod.fst

theorem sanitizeFields_km_keys_not_taken :
    ∀ (fields : List (String × Value)) (taken : List String),
    ∀ s ∈ ((sanitizeFields taken fields).2).map Prod.fst, s ∉ taken := by
  intro fields
  induction fields with
  | nil => intro taken s hs; cases hs
  | cons f rest ih =>
    intro taken s hs
    obtain ⟨k, v⟩ := f
    by_cases hres : isReserved k
    · rw [sanitizeFields, if_pos hres] at hs
      simp only [List.map_cons, List.mem_cons] at hs
      rcases hs with h | h
      · subst h; exact freshName_not_mem taken (prependDis k)
      · intro htaken
        exact ih _ s h (List.mem_cons_of_mem _ htaken)
    · rw [sanitizeFields, if_neg hres] at hs
      exact ih _ s hs

theorem sanitizeFields_out_keys :
    ∀ (fields : List (String × Value)) (taken : List String),
    ∀ k' ∈ ((sanitizeFields taken fields).1).map Prod.fst,
      k' ∈ fields.map Prod.fst ∨ k'.data.head? = some disChar := by
  intro fields
  induction fields with
  | nil => intro taken k' hk; cases hk
  | cons f rest ih =>
    intro taken k' hk
    obtain ⟨k, v⟩ := f
    by_cases hres : isReserved k
    · rw [sanitizeFields, if_pos hres] at hk
      simp only [List.map_cons, List.mem_cons] at hk
      rcases hk with h | h
      · subst h
        right
        rcases freshName_head taken (prependDis k) with hh | hh
        · rw [hh]; rfl
        · exact hh
      · rcases ih _ k' h with h' | h'
        · left; exact List.mem_cons_of_mem _ h'
        · right; exact h'
    · rw [sanitizeFields, if_neg hres] at hk
      simp only [List.map_cons, List.mem_cons] at hk
      rcases hk with h | h
      · left; simp [h]
      · rcases ih _ k' h with h' | h'
        · left; exact List.mem_cons_of_mem _ h'
        · right; exact h'

theorem sanitizeFields_restore :
    ∀ (fields : List (String × Value)) (taken : List String)
      (pre : List (String × String)),
    (∀ k ∈ fields.map Prod.fst, k ∈ taken) →
    (∀ p ∈ pre.map Prod.fst, p ∈ taken) →
    (∀ p ∈ pre.map Prod.fst, p ∉ fields.map Prod.fst) →
    ((sanitizeFields taken fields).1).map
      (restoreEntry (pre ++ (sanitizeFields taken fields).2)) = fields := by
  intro fields
  induction fields with
  | nil => intro taken pre _ _ _; rfl
  | cons f rest ih =>
    intro taken pre hf hpre1 hpre2
    obtain ⟨k, v⟩ := f
    have hk : k ∈ taken := hf k (by simp)
    by_cases hres : isReserved k
    · rw [sanitizeFields, if_pos hres]
      simp only [List.map_cons]
      set safe := freshName taken (prependDis k) with hsafe
      have hsafe_not : safe ∉ taken := freshName_not_mem taken (prependDis k)
      rw [List.cons_eq_cons]
      constructor
      case _ =>
        -- head entry: the safe name maps back to the original name
        show restoreEntry (pre ++ (safe, k) ::
          (sanitizeFields (safe :: taken) rest).2) (safe, v) = (k, v)
        have hpre_none : alookup pre safe = none := by
          apply alookup_eq_none
          intro hmem
          exact hsafe_not (hpre1 safe hmem)
        rw [restoreEntry, alookup_append_of_none _ _ _ hpre_none]
        rw [alookup, if_pos rfl]
      case _ =>
        -- tail: apply the induction hypothesis with the extended context
        have := ih (safe :: taken) (pre ++ [(safe, k)])
          (fun k' hk' => List.mem_cons_of_mem _ (hf k' (List.mem_cons_of_mem _ hk')))
          (by
            intro p hp
            rw [List.map_append, List.mem_append] at hp
            rcases hp with hp | hp
            · exact List.mem_cons_of_mem _ (hpre1 p hp)
            · simp only [List.map_cons, List.map_nil, List.mem_singleton] at hp
              subst hp; exact List.mem_cons_self _ _)
          (by
            intro p hp
            rw [List.map_append, List.mem_append] at hp
            rcases hp with hp | hp
            · intro hmem
              exact hpre2 p hp (List.mem_cons_of_mem _ hmem)
            · simp only [List.map_cons, List.map_nil, List.mem_singleton] at hp
              subst hp
              intro hmem
              exact hsafe_not (hf safe (List.mem_cons_of_mem _ hmem)))
        rw [List.append_assoc] at this
        simpa using this
    · rw [sanitizeFields, if_neg hres]
      simp only [List.map_cons]
      rw [List.cons_eq_cons]
      constructor
      case _ =>
        show restoreEntry (pre ++ (sanitizeFields taken rest).2) (k, v) = (k, v)
        have hpre_none : alookup pre k = none := by
          apply alookup_eq_none
          intro hmem
          exact hpre2 k hmem (by simp)
        rw [restoreEntry, alookup_append_of_none _ _ _ hpre_none]
        rw [alookup_eq_none _ _ (fun hmem =>
          sanitizeFields_km_keys_not_taken rest taken k hmem hk)]
      case _ =>
        exact ih taken pre
          (fun k' hk' => hf k' (List.mem_cons_of_mem _ hk'))
          hpre1
          (fun p hp hmem => hpre2 p hp (List.mem_cons_of_mem _ hmem))

theorem sanitizeFields_empty_km :
    ∀ (fields : List (String × Value)) (taken : List String),
    (sanitizeFields taken fields).2 = [] →
    (sanitizeFields taken fields).1 = fields := by
  intro fields
  induction fields with
  | nil => intro taken _; rfl
  | cons f rest ih =>
    intro taken h
    obtain ⟨k, v⟩ := f
    by_cases hres : isReserved k
    · rw [sanitizeFields, if_pos hres] at h
      simp at h
    · rw [sanitizeFields, if_neg hres] at h ⊢
      have h' : (sanitizeFields taken rest).2 = [] := h
      show (k, v) :: (sanitizeFields taken rest).1 = (k, v) :: rest
      rw [ih taken h']

theorem decodeKeymap_encodeKeymap (km : List (String × String)) :
    decodeKeymap (encodeKeymap km) = km := by
  induction km with
  | nil => rfl
  | cons e rest ih =>
    obtain ⟨s, o⟩ := e
    simp only [encodeKeymap, decodeKeymap, List.map_cons, List.filterMap_cons] at ih ⊢
    rw [ih]

theorem keymapField_head : keymapField.data.head? = some '_' := rfl

theorem sanitizeFields_out_key_ne_keymapField (d : Doc)
    (hwf : wellFormedDoc d) :
    ∀ k' ∈ ((sanitize d).1).map Prod.fst, k' ≠ keymapField := by
  intro k' hk' heq
  rcases sanitizeFields_out_keys d (d.map Prod.fst) k' hk' with h | h
  · exact hwf.2 (heq ▸ h)
  · rw [heq, keymapField_head] at h
    cases h

/-- C1: for every well-formed mapping document `d`, restoring the result of
sanitization yields `d` exactly: `restore` applied to `sanitize d` equals
`d`, including when `d` already contains a field whose name equals a
candidate disambiguated name (the renaming avoids collisions
deterministically by repeatedly prepending the disambiguation character). -/
theorem claim_C1_sanitize_restore_roundtrip (d : Doc) (h : wellFormedDoc d) :
    restoreDoc (sanitizeDoc d) = d := by
  by_cases hkm : (sanitize d).2.isEmpty
  · have hkm' : (sanitize d).2 = [] := by
      cases hl : (sanitize d).2 with
      | nil => rfl
      | cons a l => rw [hl] at hkm; cases hkm
    have hout : (sanitize d).1 = d := sanitizeFields_empty_km d _ hkm'
    rw [sanitizeDoc, if_pos hkm, hout]
    simp only [restoreDoc]
    rw [alookup_eq_none d keymapField h.2]
  · have hout_none : alookup (sanitize d).1 keymapField = none :=
      alookup_eq_none _ _ (fun hmem =>
        sanitizeFields_out_key_ne_keymapField d h keymapField hmem rfl)
    rw [sanitizeDoc, if_neg hkm]
    simp only [restoreDoc]
    rw [alookup_append_of_none _ _ _ hout_none, alookup, if_pos rfl]
    show restore ((sanitize d).1 ++ [(keymapField, encodeKeymap (sanitize d).2)])
      (decodeKeymap (encodeKeymap (sanitize d).2)) = d
    rw [decodeKeymap_encodeKeymap, restore, List.filter_append]
    have h1 : (sanitize d).1.filter (fun f => f.1 ≠ keymapField) = (sanitize d).1 := by
      rw [List.filter_eq_self]
      intro a ha
      simp only [decide_eq_true_eq]
      exact sanitizeFields_out_key_ne_keymapField d h a.1
        (List.mem_map_of_mem Prod.fst ha)
    have h2 : ([(keymapField, encodeKeymap (sanitize d).2)]).filter
        (fun f => f.1 ≠ keymapField) = [] := by simp
    rw [h1, h2, List.append_nil]
    have := sanitizeFields_restore d (d.map Prod.fst) []
      (fun k hk => hk) (by intro p hp; cases hp) (by intro p hp; cases hp)
    simpa using this

/-- Concrete witness for C1: a document that already contains a field equal
to the first candidate disambiguated name of its reserved-prefix field. -/
def c1doc : Doc :=
  [("name", Value.vStr "Tiger"), ("_secret", Value.vStr "stripe"),
   ("u_secret", Value.vStr "decoy")]

theorem claim_C1_witness :
    wellFormedDoc c1doc ∧ restoreDoc (sanitizeDoc c1doc) = c1doc :=
  ⟨⟨by decide, by decide⟩,
   claim_C1_sanitize_restore_roundtrip c1doc ⟨by decide, by decide⟩⟩

/-! ## The result envelope, the TTL cache, the backing store and the client
state. All of these are modelled from the spec because the `ZMongo`
implementation is absent from the repository sources. -/

/-- Data payload variants carried by a result envelope. -/
inductive ResData where
  | doc (d : Doc) : ResData
  | docs (ds : List Doc) : ResData
  | ids (l : List Nat) : ResData
  | oneId (n : Nat) : ResData
  | count (n : Nat) : ResData
  | names (l : List String) : ResData
  | bulk (inserted matched modified deleted upserted : Nat) : ResData
deriving Repr

/-- Modelled from the spec: the `SafeResult` envelope
`(success, data, error)` returned by every public operation; the
implementation is absent from the sources. -/
structure SafeResult where
  success : Bool
  data : Option ResData
  error : Option String
deriving Repr

/-- Successful envelope with a payload. -/
def ok (d : ResData) : SafeResult := ⟨true, some d, none⟩

/-- Successful envelope without a payload (e.g. a point read finding no
document). -/
def okEmpty : SafeResult := ⟨true, none, none⟩

/-- Failure envelope carrying a descriptive error. -/
def fail (e : String) : SafeResult := ⟨false, none, some e⟩

/-- Configuration: cache TTL and maximum cache entry count. -/
structure Config where
  ttl : Nat
  maxSize : Nat

/-- The backing store: a collection-name-indexed family of document lists. -/
abbrev StoreT := List (String × List Doc)

/-- Documents of one collection. -/
def getColl (s : StoreT) (c : String) : List Doc := (alookup s c).getD []

/-- Replace (or create) the contents of one collection. -/
def setColl : StoreT → String → List Doc → StoreT
  | [], c, ds => [(c, ds)]
  | (c', ds') :: rest, c, ds =>
    if c' = c then (c, ds) :: rest else (c', ds') :: setColl rest c ds

/-- A cache key: the collection name plus the normalized query shape. -/
abbrev CacheKey := String × Query

/-- Cache entries: key, cached point-lookup result, insertion timestamp. -/
abbrev CacheT := List (CacheKey × (Option Doc × Nat))

/-- Equality test on cache keys. -/
def keyBeq (k₁ k₂ : CacheKey) : Bool := k₁.1 == k₂.1 && beqVF k₁.2 k₂.2

/-- Raw cache entry lookup, ignoring expiry. -/
def cacheLookup : CacheT → CacheKey → Option (Option Doc × Nat)
  | [], _ => none
  | (k', e) :: rest, k => if keyBeq k' k then some e else cacheLookup rest k

/-- Modelled from the spec: `get(collection, queryShape)` of the TTLCache —
an entry is never returned once `now - insertedAt > ttl`. -/
def cacheGet (cfg : Config) (cache : CacheT) (k : CacheKey) (now : Nat) :
    Option (Option Doc) :=
  match cacheLookup cache k with
  | some (v, t) => if now - t ≤ cfg.ttl then some v else none
  | none => none

/-- Modelled from the spec: `put(collection, queryShape, value)` — newest
entries first, clamped to the maximum entry count (oldest evicted first). -/
def cachePut (cfg : Config) (cache : CacheT) (k : CacheKey) (v : Option Doc)
    (now : Nat) : CacheT :=
  (((k, (v, now)) :: cache.filter (fun e => !keyBeq e.1 k))).take cfg.maxSize

/-- Modelled from the spec: `invalidate(collection)` removes every entry in
that collection's namespace. -/
def cacheInvalidate (cache : CacheT) (c : String) : CacheT :=
  cache.filter (fun e => !(e.1.1 == c))

/-- Field lookup inside a document. -/
def lookupField (d : Doc) (k : String) : Option Value := alookup d k

/-- Point-query matching: every queried field is present with an equal
value. -/
def queryMatches (q : Query) (d : Doc) : Bool :=
  q.all (fun f =>
    match lookupField d f.1 with
    | some v => beqV v f.2
    | none => false)

/-- The backing store's `findOne`. -/
def storeFindOne (store : StoreT) (c : String) (q : Query) : Option Doc :=
  (getColl store c).find? (queryMatches q)

/-- Modelled from the spec: the mutable client state — backing store,
TTL cache, per-collection write buffers, a counter of backing-store
point-lookup calls, the clock, the identifier counter, a pending
backing-store error (the external engine is fallible), and the external
engine's aggregation behaviour as an oracle. -/
structure St where
  store : StoreT
  cache : CacheT
  buffers : String → List Doc
  findCalls : Nat
  now : Nat
  nextId : Nat
  storeFail : Option String
  agg : String → List Value → List Doc

/-- Advance the clock. -/
def tick (n : Nat) (st : St) : St := { st with now := st.now + n }

/-- Envelope for a point-lookup result. -/
def readResult : Option Doc → SafeResult
  | some d => ok (.doc d)
  | none => okEmpty

/-! ## Client operations (WriteCoordinator level, documents already known to
be mappings). Modelled from the spec; the implementation is absent from the
repository sources. -/

/-- Modelled from the spec: `findDocument` — consult the TTL cache first; on
a hit within TTL no backing-store call is made; on a miss call the backing
store, apply key restoration, and populate the cache with the point-lookup
result. -/
def findDoc (cfg : Config) (c : String) (q : Query) (st : St) :
    SafeResult × St :=
  match cacheGet cfg st.cache (c, q) st.now with
  | some r => (readResult r, st)
  | none =>
    match st.storeFail with
    | some e => (fail e, { st with findCalls := st.findCalls + 1 })
    | none =>
      let r := (storeFindOne st.store c q).map restoreDoc
      (readResult r,
       { st with
          findCalls := st.findCalls + 1,
          cache := cachePut cfg st.cache (c, q) r st.now })

/-- Modelled from the spec: `findDocuments` — multi-document read, never
cached, capped at the supplied limit. -/
def findDocs (c : String) (q : Query) (lim : Nat) (st : St) :
    SafeResult × St :=
  match st.storeFail with
  | some e => (fail e, st)
  | none =>
    (ok (.docs ((((getColl st.store c).filter (queryMatches q)).take lim).map
      restoreDoc)), st)

/-- Modelled from the spec: default-tier `insertDocument` — sanitize, single
insert through the backing store, invalidate the collection's cache
namespace, return the native identifier. -/
def insertDoc (c : String) (d : Doc) (st : St) : SafeResult × St :=
  match st.storeFail with
  | some e => (fail e, { st with cache := cacheInvalidate st.cache c })
  | none =>
    (ok (.oneId st.nextId),
     { st with
        store := setColl st.store c (getColl st.store c ++ [sanitizeDoc d]),
        cache := cacheInvalidate st.cache c,
        nextId := st.nextId + 1 })

/-- Modelled from the spec: default-tier `insertDocuments` — sanitize every
document, one bulk insert, invalidate the collection's cache namespace. -/
def insertManyDefault (c : String) (ds : List Doc) (st : St) :
    SafeResult × St :=
  match st.storeFail with
  | some e => (fail e, { st with cache := cacheInvalidate st.cache c })
  | none =>
    (ok (.ids ((List.range ds.length).map (st.nextId + ·))),
     { st with
        store := setColl st.store c (getColl st.store c ++ ds.map sanitizeDoc),
        cache := cacheInvalidate st.cache c,
        nextId := st.nextId + ds.length })

/-- Modelled from the spec: fast-tier insertion — no sanitization, no
serialization, no cache interaction; a single bulk insert-many of the
caller-supplied documents exactly as given, returning the raw list of
inserted identifiers or the single backing-store error. -/
def fastInsert (c : String) (ds : List Doc) (st : St) : SafeResult × St :=
  match st.storeFail with
  | some e => (fail e, st)
  | none =>
    (ok (.ids ((List.range ds.length).map (st.nextId + ·))),
     { st with
        store := setColl st.store c (getColl st.store c ++ ds),
        nextId := st.nextId + ds.length })

/-- Modelled from the spec: buffered-tier insertion — append the documents,
as given, onto the collection's write buffer and return immediately with a
queued-not-yet-durable envelope; the backing store is never consulted. -/
def bufferedEnqueue (c : String) (ds : List Doc) (st : St) :
    SafeResult × St :=
  (ok (.count ds.length),
   { st with
      buffers := fun c' => if c' = c then st.buffers c' ++ ds else st.buffers c' })

/-- Modelled from the spec: the atomic buffer swap performed by a flush:
the buffer's contents are taken out and the buffer is left empty. -/
def flushSwap (c : String) (st : St) : List Doc × St :=
  (st.buffers c,
   { st with buffers := fun c' => if c' = c then [] else st.buffers c' })

/-- A concurrent buffered append landing while a flush is in progress. -/
def appendBuffered (c : String) (ds : List Doc) (st : St) : St :=
  { st with
     buffers := fun c' => if c' = c then st.buffers c' ++ ds else st.buffers c' }

/-- Modelled from the spec: the commit half of a flush — one bulk insert of
the swapped-out generation, all-or-nothing, invalidating the collection's
cache namespace. -/
def flushCommit (c : String) (gen : List Doc) (st : St) : SafeResult × St :=
  match st.storeFail with
  | some e => (fail e, { st with cache := cacheInvalidate st.cache c })
  | none =>
    (ok (.ids ((List.range gen.length).map (st.nextId + ·))),
     { st with
        store := setColl st.store c (getColl st.store c ++ gen),
        cache := cacheInvalidate st.cache c,
        nextId := st.nextId + gen.length })

/-- Modelled from the spec: `flushBuffered(collection)` — atomically swap
out the buffer contents and commit them in a single bulk insert. -/
def flushBuffered (c : String) (st : St) : SafeResult × St :=
  flushCommit c (flushSwap c st).1 (flushSwap c st).2

/-- Replace a field's value in place (or append the field). -/
def setField : Doc → String → Value → Doc
  | [], k, v => [(k, v)]
  | (k', v') :: rest, k, v =>
    if k' = k then (k, v) :: rest else (k', v') :: setField rest k v

/-- Apply an update document as a field-set. -/
def applySet (d : Doc) (u : Doc) : Doc :=
  u.foldl (fun acc f => setField acc f.1 f.2) d

/-- Update the first matching document, if any. -/
def updateFirst : List Doc → Query → Doc → Option (List Doc)
  | [], _, _ => none
  | d :: rest, q, u =>
    if queryMatches q d then some (applySet d u :: rest)
    else
      match updateFirst rest q u with
      | some rest' => some (d :: rest')
      | none => none

/-- Update every matching document, returning the modified count. -/
def updateAll : List Doc → Query → Doc → List Doc × Nat
  | [], _, _ => ([], 0)
  | d :: rest, q, u =>
    let p := updateAll rest q u
    if queryMatches q d then (applySet d u :: p.1, p.2 + 1) else (d :: p.1, p.2)

/-- Delete the first matching document, if any. -/
def deleteFirst : List Doc → Query → Option (List Doc)
  | [], _ => none
  | d :: rest, q =>
    if queryMatches q d then some rest
    else
      match deleteFirst rest q with
      | some rest' => some (d :: rest')
      | none => none

/-- Modelled from the spec: `updateDocument` — single-document update; a
match failure where the caller expected a match is the NotFound category,
captured in the envelope; the collection's cache namespace is invalidated. -/
def updateDoc (c : String) (q : Query) (u : Doc) (st : St) : SafeResult × St :=
  match st.storeFail with
  | some e => (fail e, { st with cache := cacheInvalidate st.cache c })
  | none =>
    match updateFirst (getColl st.store c) q u with
    | some docs' =>
      (ok (.count 1),
       { st with
          store := setColl st.store c docs',
          cache := cacheInvalidate st.cache c })
    | none => (fail "NotFound", { st with cache := cacheInvalidate st.cache c })

/-- Modelled from the spec: `updateDocuments` — multi-document update
returning the modified count; the collection's cache namespace is
invalidated. -/
def updateManyDocs (c : String) (q : Query) (u : Doc) (st : St) :
    SafeResult × St :=
  match st.storeFail with
  | some e => (fail e, { st with cache := cacheInvalidate st.cache c })
  | none =>
    (ok (.count (updateAll (getColl st.store c) q u).2),
     { st with
        store := setColl st.store c (updateAll (getColl st.store c) q u).1,
        cache := cacheInvalidate st.cache c })

/-- Modelled from the spec: `deleteDocument` — single-document delete; a
match failure is the NotFound category, captured in the envelope; the
collection's cache namespace is invalidated. -/
def deleteDoc (c : String) (q : Query) (st : St) : SafeResult × St :=
  match st.storeFail with
  | some e => (fail e, { st with cache := cacheInvalidate st.cache c })
  | none =>
    match deleteFirst (getColl st.store c) q with
    | some docs' =>
      (ok (.count 1),
       { st with
          store := setColl st.store c docs',
          cache := cacheInvalidate st.cache c })
    | none => (fail "NotFound", { st with cache := cacheInvalidate st.cache c })

/-- Modelled from the spec: `deleteDocuments` — delete every matching
document, returning the deleted count; the collection's cache namespace is
invalidated. -/
def deleteManyDocs (c : String) (q : Query) (st : St) : SafeResult × St :=
  match st.storeFail with
  | some e => (fail e, { st with cache := cacheInvalidate st.cache c })
  | none =>
    (ok (.count ((getColl st.store c).countP (queryMatches q))),
     { st with
        store := setColl st.store c ((getColl st.store c).filter
          (fun d => !queryMatches q d)),
        cache := cacheInvalidate st.cache c })

/-- One bulk-write operation (WriteCoordinator level). -/
inductive BulkOp where
  | insertOne (d : Doc) : BulkOp
  | updateOne (q : Query) (u : Doc) : BulkOp
  | deleteOne (q : Query) : BulkOp
  | replaceOne (q : Query) (d : Doc) : BulkOp

/-- Replace the first matching document, if any. -/
def replaceFirst : List Doc → Query → Doc → Option (List Doc)
  | [], _, _ => none
  | d :: rest, q, r =>
    if queryMatches q d then some (r :: rest)
    else
      match replaceFirst rest q r with
      | some rest' => some (d :: rest')
      | none => none

/-- Sequential effect of an ordered batch of bulk operations on one
collection's documents, with (inserted, modified, deleted) counts. -/
def applyBulkOps : List Doc → List BulkOp → List Doc × (Nat × Nat × Nat)
  | docs, [] => (docs, (0, 0, 0))
  | docs, op :: rest =>
    let step : List Doc × (Nat × Nat × Nat) :=
      match op with
      | .insertOne d => (docs ++ [d], (1, 0, 0))
      | .updateOne q u =>
        match updateFirst docs q u with
        | some ds => (ds, (0, 1, 0))
        | none => (docs, (0, 0, 0))
      | .deleteOne q =>
        match deleteFirst docs q with
        | some ds => (ds, (0, 0, 1))
        | none => (docs, (0, 0, 0))
      | .replaceOne q d =>
        match replaceFirst docs q d with
        | some ds => (ds, (0, 1, 0))
        | none => (docs, (0, 0, 0))
    let r := applyBulkOps step.1 rest
    (r.1, (step.2.1 + r.2.1, step.2.2.1 + r.2.2.1, step.2.2.2 + r.2.2.2))

/-- Modelled from the spec: `bulkWrite` — submit a heterogeneous ordered
batch, report per-category counts, invalidate the collection's cache
namespace. -/
def bulkWriteOp (c : String) (ops : List BulkOp) (st : St) : SafeResult × St :=
  match st.storeFail with
  | some e => (fail e, { st with cache := cacheInvalidate st.cache c })
  | none =>
    let r := applyBulkOps (getColl st.store c) ops
    (ok (.bulk r.2.1 r.2.2.1 r.2.2.1 r.2.2.2 0),
     { st with
        store := setColl st.store c r.1,
        cache := cacheInvalidate st.cache c })

/-- Modelled from the spec: `aggregate(collection, pipeline, limit?)` — the
full pipeline is executed against the backing store (the external engine
oracle); if a limit is supplied the returned result list is truncated
client-side to at most that many entries afterwards. Never cached. -/
def aggregateOp (c : String) (p : List Value) (lim : Option Nat) (st : St) :
    SafeResult × St :=
  match st.storeFail with
  | some e => (fail e, st)
  | none =>
    (ok (.docs (match lim with
      | some l => (st.agg c p).take l
      | none => st.agg c p)), st)

/-- Modelled from the spec: `countDocuments`. -/
def countDocs (c : String) (q : Query) (st : St) : SafeResult × St :=
  match st.storeFail with
  | some e => (fail e, st)
  | none => (ok (.count ((getColl st.store c).countP (queryMatches q))), st)

/-- Modelled from the spec: `listCollections`. -/
def listColls (st : St) : SafeResult × St :=
  match st.storeFail with
  | some e => (fail e, st)
  | none => (ok (.names (st.store.map Prod.fst)), st)

/-- Modelled from the spec: `clearCache`. -/
def clearCacheOp (st : St) : SafeResult × St := (okEmpty, { st with cache := [] })

/-! ## The Client boundary: raw caller inputs, the insertion-tier mode
flags, and the exception/envelope discipline. -/

/-- The three mutually exclusive insertion tiers. -/
inductive Mode where
  | default : Mode
  | fast : Mode
  | buffered : Mode

/-- A caller-supplied document is usable only if it is a mapping. -/
def toDoc : Value → Option Doc
  | .vDoc fs => some fs
  | _ => none

/-- Convert a list of caller-supplied documents; fails if any is not a
mapping. -/
def toDocs : List Value → Option (List Doc)
  | [] => some []
  | v :: rest =>
    match toDoc v, toDocs rest with
    | some d, some ds => some (d :: ds)
    | _, _ => none

/-- One caller-level bulk-write operation (documents still raw values). -/
inductive CBulkOp where
  | insertOne (v : Value) : CBulkOp
  | updateOne (q : Query) (u : Value) : CBulkOp
  | deleteOne (q : Query) : CBulkOp
  | replaceOne (q : Query) (v : Value) : CBulkOp

/-- Convert one caller-level bulk operation. -/
def toBulk : CBulkOp → Option BulkOp
  | .insertOne v => (toDoc v).map .insertOne
  | .updateOne q u => (toDoc u).map (.updateOne q)
  | .deleteOne q => some (.deleteOne q)
  | .replaceOne q v => (toDoc v).map (.replaceOne q)

/-- Convert a batch of caller-level bulk operations. -/
def toBulks : List CBulkOp → Option (List BulkOp)
  | [] => some []
  | o :: rest =>
    match toBulk o, toBulks rest with
    | some b, some bs => some (b :: bs)
    | _, _ => none

/-- The public Client operations. -/
inductive COp where
  | insertDocument (c : String) (v : Value) : COp
  | insertDocuments (c : String) (vs : List Value) (m : Mode) : COp
  | flushBufferedInserts (c : String) : COp
  | findDocument (c : String) (q : Query) : COp
  | findDocuments (c : String) (q : Query) (lim : Nat) : COp
  | updateDocument (c : String) (q : Query) (u : Value) : COp
  | updateDocuments (c : String) (q : Query) (u : Value) : COp
  | deleteDocument (c : String) (q : Query) : COp
  | deleteDocuments (c : String) (q : Query) : COp
  | bulkWrite (c : String) (ops : List CBulkOp) : COp
  | aggregate (c : String) (p : List Value) (lim : Option Nat) : COp
  | countDocuments (c : String) (q : Query) : COp
  | listCollections : COp
  | clearCache : COp

/-- Programmer misuse: a document argument that is not a mapping. This is
the one category the spec allows to propagate as an exception. -/
def misuseOp : COp → Prop
  | .insertDocument _ v => toDoc v = none
  | .insertDocuments _ vs _ => toDocs vs = none
  | .updateDocument _ _ u => toDoc u = none
  | .updateDocuments _ _ u => toDoc u = none
  | .bulkWrite _ ops => toBulks ops = none
  | _ => False

/-- Modelled from the spec: the Client boundary. Every expected failure
category is captured in the returned envelope; only programmer misuse
(a non-mapping document argument) propagates as an exception, modelled as
the `Except.error` case. An empty insert list succeeds immediately with an
empty identifier list. -/
def exec (cfg : Config) (op : COp) (st : St) :
    Except String (SafeResult × St) :=
  match op with
  | .insertDocument c v =>
    match toDoc v with
    | none => .error "InvalidDocument"
    | some d => .ok (insertDoc c d st)
  | .insertDocuments c vs m =>
    match toDocs vs with
    | none => .error "InvalidDocument"
    | some ds =>
      if ds.isEmpty then .ok (ok (.ids []), st)
      else
        match m with
        | .default => .ok (insertManyDefault c ds st)
        | .fast => .ok (fastInsert c ds st)
        | .buffered => .ok (bufferedEnqueue c ds st)
  | .flushBufferedInserts c => .ok (flushBuffered c st)
  | .findDocument c q => .ok (findDoc cfg c q st)
  | .findDocuments c q lim => .ok (findDocs c q lim st)
  | .updateDocument c q u =>
    match toDoc u with
    | none => .error "InvalidDocument"
    | some ud => .ok (updateDoc c q ud st)
  | .updateDocuments c q u =>
    match toDoc u with
    | none => .error "InvalidDocument"
    | some ud => .ok (updateManyDocs c q ud st)
  | .deleteDocument c q => .ok (deleteDoc c q st)
  | .deleteDocuments c q => .ok (deleteManyDocs c q st)
  | .bulkWrite c ops =>
    match toBulks ops with
    | none => .error "InvalidDocument"
    | some bs => .ok (bulkWriteOp c bs st)
  | .aggregate c p lim => .ok (aggregateOp c p lim st)
  | .countDocuments c q => .ok (countDocs c q st)
  | .listCollections => .ok (listColls st)
  | .clearCache => .ok (clearCacheOp st)

/-! ## Basic algebra of the store and the cache. -/

theorem getColl_setColl_self (s : StoreT) (c : String) (ds : List Doc) :
    getColl (setColl s c ds) c = ds := by
  induction s with
  | nil => simp [setColl, getColl, alookup]
  | cons e rest ih =>
    obtain ⟨c', ds'⟩ := e
    by_cases h : c' = c
    · simp [setColl, h, getColl, alookup]
    · simp only [setColl, if_neg h]
      rw [getColl, alookup, if_neg h]
      exact ih

theorem keyBeq_refl (k : CacheKey) : keyBeq k k = true := by
  simp [keyBeq, beqVF_refl]

theorem cacheLookup_cachePut (cfg : Config) (cache : CacheT) (k : CacheKey)
    (v : Option Doc) (t : Nat) (h : 1 ≤ cfg.maxSize) :
    cacheLookup (cachePut cfg cache k v t) k = some (v, t) := by
  rw [cachePut]
  obtain ⟨m, hm⟩ : ∃ m, cfg.maxSize = m + 1 :=
    ⟨cfg.maxSize - 1, by omega⟩
  rw [hm, List.take_succ_cons, cacheLookup, if_pos (keyBeq_refl k)]

theorem cacheLookup_invalidate (cache : CacheT) (c : String) (q : Query) :
    cacheLookup (cacheInvalidate cache c) (c, q) = none := by
  induction cache with
  | nil => rfl
  | cons e rest ih =>
    rw [cacheInvalidate, List.filter_cons]
    by_cases h : e.1.1 == c
    · simp only [h, Bool.not_true, if_neg]
      exact ih
    · rw [Bool.not_eq_true] at h
      simp only [h, Bool.not_false, if_pos]
      rw [cacheLookup]
      have hk : keyBeq e.1 (c, q) = false := by
        rw [keyBeq]
        simp [h]
      rw [if_neg (by simp [hk])]
      exact ih

theorem cacheLookup_filter_some (cache : CacheT) (p : CacheKey × (Option Doc × Nat) → Bool)
    (k : CacheKey) (e : Option Doc × Nat)
    (h : cacheLookup (cache.filter p) k = some e) :
    ∃ e', cacheLookup cache k = some e' := by
  induction cache with
  | nil => cases h
  | cons a rest ih =>
    rw [List.filter_cons] at h
    by_cases hk : keyBeq a.1 k = true
    · exact ⟨a.2, by rw [cacheLookup, if_pos hk]⟩
    · by_cases hp : p a = true
      · rw [if_pos hp, cacheLookup, if_neg (by simp [hk])] at h
        obtain ⟨e', he'⟩ := ih h
        exact ⟨e', by rw [cacheLookup, if_neg (by simp [hk])]; exact he'⟩
      · rw [if_neg hp] at h
        obtain ⟨e', he'⟩ := ih h
        exact ⟨e', by rw [cacheLookup, if_neg (by simp [hk])]; exact he'⟩

theorem cacheGet_none_of_lookup_none (cfg : Config) (cache : CacheT)
    (k : CacheKey) (now : Nat) (h : cacheLookup cache k = none) :
    cacheGet cfg cache k now = none := by
  rw [cacheGet, h]

theorem queryMatches_nil (d : Doc) : queryMatches [] d = true := rfl

theorem countP_queryMatches_nil (l : List Doc) :
    l.countP (queryMatches []) = l.length := by
  induction l with
  | nil => rfl
  | cons d rest ih =>
    rw [List.countP_cons_of_pos _ _ (queryMatches_nil d), ih, List.length_cons]

/-! ## The backing-store write operations and their cache discipline. -/

/-- The backing-store writes on a collection: the operations the spec's
cache-invalidation discipline ranges over (default-tier inserts, updates,
deletes, bulk writes, and the buffered flush — the operations that reach
the backing store). -/
inductive WOp where
  | insertOne (d : Doc) : WOp
  | insertMany (ds : List Doc) : WOp
  | updateOne (q : Query) (u : Doc) : WOp
  | updateMany (q : Query) (u : Doc) : WOp
  | deleteOne (q : Query) : WOp
  | deleteMany (q : Query) : WOp
  | bulk (ops : List BulkOp) : WOp
  | flush : WOp

/-- Execute a backing-store write against one collection. -/
def writeExec (w : WOp) (c : String) (st : St) : SafeResult × St :=
  match w with
  | .insertOne d => insertDoc c d st
  | .insertMany ds => insertManyDefault c ds st
  | .updateOne q u => updateDoc c q u st
  | .updateMany q u => updateManyDocs c q u st
  | .deleteOne q => deleteDoc c q st
  | .deleteMany q => deleteManyDocs c q st
  | .bulk ops => bulkWriteOp c ops st
  | .flush => flushBuffered c st

theorem writeExec_cache (w : WOp) (c : String) (st : St) :
    (writeExec w c st).2.cache = cacheInvalidate st.cache c := by
  cases w <;>
    cases h : st.storeFail <;>
      simp [writeExec, insertDoc, insertManyDefault, updateDoc, updateManyDocs,
        deleteDoc, deleteManyDocs, bulkWriteOp, flushBuffered, flushCommit,
        flushSwap, h] <;>
      first
        | rfl
        | (split <;> rfl)

theorem writeExec_findCalls (w : WOp) (c : String) (st : St) :
    (writeExec w c st).2.findCalls = st.findCalls := by
  cases w <;>
    cases h : st.storeFail <;>
      simp [writeExec, insertDoc, insertManyDefault, updateDoc, updateManyDocs,
        deleteDoc, deleteManyDocs, bulkWriteOp, flushBuffered, flushCommit,
        flushSwap, h] <;>
      first
        | rfl
        | (split <;> rfl)

theorem writeExec_now (w : WOp) (c : String) (st : St) :
    (writeExec w c st).2.now = st.now := by
  cases w <;>
    cases h : st.storeFail <;>
      simp [writeExec, insertDoc, insertManyDefault, updateDoc, updateManyDocs,
        deleteDoc, deleteManyDocs, bulkWriteOp, flushBuffered, flushCommit,
        flushSwap, h] <;>
      first
        | rfl
        | (split <;> rfl)

theorem writeExec_storeFail (w : WOp) (c : String) (st : St) :
    (writeExec w c st).2.storeFail = st.storeFail := by
  cases w <;>
    cases h : st.storeFail <;>
      simp [writeExec, insertDoc, insertManyDefault, updateDoc, updateManyDocs,
        deleteDoc, deleteManyDocs, bulkWriteOp, flushBuffered, flushCommit,
        flushSwap, h] <;>
      first
        | rfl
        | (split <;> rfl)

theorem findDoc_miss (cfg : Config) (c : String) (q : Query) (st : St)
    (h : cacheLookup st.cache (c, q) = none) (hf : st.storeFail = none) :
    findDoc cfg c q st =
      (readResult ((storeFindOne st.store c q).map restoreDoc),
       { st with
          findCalls := st.findCalls + 1,
          cache := cachePut cfg st.cache (c, q)
            ((storeFindOne st.store c q).map restoreDoc) st.now }) := by
  rw [findDoc, cacheGet_none_of_lookup_none cfg st.cache (c, q) st.now h, hf]

theorem findDoc_hit (cfg : Config) (c : String) (q : Query) (st : St)
    (r : Option Doc) (h : cacheGet cfg st.cache (c, q) st.now = some r) :
    findDoc cfg c q st = (readResult r, st) := by
  rw [findDoc, h]

/-- C2: for every collection `c` and point query `q`, issuing `findDocument`
twice within the TTL window with no intervening write results in exactly one
backing-store call (the second read is served from the cache and returns the
same result); and for every backing-store write to `c` issued between the
two reads, the collection's cache namespace is invalidated, so the next
read makes a second backing-store call. -/
theorem claim_C2_cache_correctness (cfg : Config) (c : String) (q : Query)
    (δ : Nat) (st : St) (w : WOp)
    (hmax : 1 ≤ cfg.maxSize) (hfail : st.storeFail = none)
    (hfresh : cacheLookup st.cache (c, q) = none) (hδ : δ ≤ cfg.ttl) :
    ((findDoc cfg c q (tick δ (findDoc cfg c q st).2)).2.findCalls
        = st.findCalls + 1
      ∧ (findDoc cfg c q (tick δ (findDoc cfg c q st).2)).1
        = (findDoc cfg c q st).1)
    ∧ (findDoc cfg c q
        (writeExec w c (tick δ (findDoc cfg c q st).2)).2).2.findCalls
        = st.findCalls + 2 := by
  have hm := findDoc_miss cfg c q st hfresh hfail
  set r := (storeFindOne st.store c q).map restoreDoc with hr
  have hget : cacheGet cfg (tick δ (findDoc cfg c q st).2).cache (c, q)
      (tick δ (findDoc cfg c q st).2).now = some r := by
    rw [hm]
    show cacheGet cfg (cachePut cfg st.cache (c, q) r st.now) (c, q)
      (st.now + δ) = some r
    rw [cacheGet, cacheLookup_cachePut cfg st.cache (c, q) r st.now hmax]
    show (if st.now + δ - st.now ≤ cfg.ttl then some r else none) = some r
    rw [if_pos (by omega)]
  constructor
  · constructor
    · rw [findDoc_hit cfg c q _ r hget, hm]
      rfl
    · rw [findDoc_hit cfg c q _ r hget, hm]
  · have hw_cache := writeExec_cache w c (tick δ (findDoc cfg c q st).2)
    have hw_calls := writeExec_findCalls w c (tick δ (findDoc cfg c q st).2)
    have hw_sf := writeExec_storeFail w c (tick δ (findDoc cfg c q st).2)
    have hlk : cacheLookup
        (writeExec w c (tick δ (findDoc cfg c q st).2)).2.cache (c, q) = none := by
      rw [hw_cache]
      exact cacheLookup_invalidate _ c q
    have hsf : (writeExec w c (tick δ (findDoc cfg c q st).2)).2.storeFail = none := by
      rw [hw_sf, hm]
      exact hfail
    rw [findDoc_miss cfg c q _ hlk hsf]
    show (writeExec w c (tick δ (findDoc cfg c q st).2)).2.findCalls + 1
      = st.findCalls + 2
    rw [hw_calls, hm]
    rfl

/-- Initial client state used by the concrete witnesses: empty store, empty
cache, empty buffers, no pending backing-store error. -/
def st0 : St :=
  { store := []
    cache := []
    buffers := fun _ => []
    findCalls := 0
    now := 0
    nextId := 0
    storeFail := none
    agg := fun _ _ => [] }

theorem claim_C2_witness :
    (1 ≤ (⟨10, 4⟩ : Config).maxSize ∧ st0.storeFail = none
      ∧ cacheLookup st0.cache ("pets", []) = none ∧ 5 ≤ (⟨10, 4⟩ : Config).ttl)
    ∧ (((findDoc ⟨10, 4⟩ "pets" []
          (tick 5 (findDoc ⟨10, 4⟩ "pets" [] st0).2)).2.findCalls
        = st0.findCalls + 1
      ∧ (findDoc ⟨10, 4⟩ "pets" []
          (tick 5 (findDoc ⟨10, 4⟩ "pets" [] st0).2)).1
        = (findDoc ⟨10, 4⟩ "pets" [] st0).1)
    ∧ (findDoc ⟨10, 4⟩ "pets" []
        (writeExec (.deleteMany []) "pets"
          (tick 5 (findDoc ⟨10, 4⟩ "pets" [] st0).2)).2).2.findCalls
        = st0.findCalls + 2) :=
  ⟨⟨by decide, rfl, rfl, by decide⟩,
   claim_C2_cache_correctness ⟨10, 4⟩ "pets" [] 5 st0 (.deleteMany [])
     (by decide) rfl rfl (by decide)⟩

/-- C7: the TTL cache never returns an expired entry: whenever the entry
stored for a key was inserted at time `t` with `now - t > ttl`, `get`
returns a miss, and the first point read after expiry makes a
backing-store call. -/
theorem claim_C7_ttl_expiry (cfg : Config) (c : String) (q : Query) (st : St)
    (v : Option Doc) (t : Nat)
    (hlk : cacheLookup st.cache (c, q) = some (v, t))
    (hexp : cfg.ttl < st.now - t) (hfail : st.storeFail = none) :
    cacheGet cfg st.cache (c, q) st.now = none
    ∧ (findDoc cfg c q st).2.findCalls = st.findCalls + 1 := by
  have hget : cacheGet cfg st.cache (c, q) st.now = none := by
    rw [cacheGet, hlk]
    show (if st.now - t ≤ cfg.ttl then some v else none) = none
    rw [if_neg (by omega)]
  refine ⟨hget, ?_⟩
  rw [findDoc, hget, hfail]

/-- Expired client state used by the C7 witness: one cache entry inserted at
time 0, clock already past the TTL. -/
def st7 : St :=
  { store := []
    cache := [(("pets", []), (none, 0))]
    buffers := fun _ => []
    findCalls := 3
    now := 20
    nextId := 0
    storeFail := none
    agg := fun _ _ => [] }

theorem claim_C7_witness :
    (cacheLookup st7.cache ("pets", []) = some (none, 0)
      ∧ (⟨10, 4⟩ : Config).ttl < st7.now - 0 ∧ st7.storeFail = none)
    ∧ (cacheGet ⟨10, 4⟩ st7.cache ("pets", []) st7.now = none
      ∧ (findDoc ⟨10, 4⟩ "pets" [] st7).2.findCalls = st7.findCalls + 1) :=
  ⟨⟨rfl, by decide, rfl⟩,
   claim_C7_ttl_expiry ⟨10, 4⟩ "pets" [] st7 none 0 rfl (by decide) rfl⟩

/-- C6: fast-tier insertion performs no sanitization, no serialization and
no cache interaction: the documents are appended to the backing store
exactly as given in one bulk call, the cache and the buffers are unchanged,
and the envelope carries the raw list of inserted identifiers or the single
backing-store error; consequently a point read for a query shape that was
not already cached still misses the cache after the insert and makes a
backing-store call. -/
theorem claim_C6_fast_mode_frame (cfg : Config) (c : String) (ds : List Doc)
    (st : St) :
    (st.storeFail = none →
      fastInsert c ds st =
        (ok (.ids ((List.range ds.length).map (st.nextId + ·))),
         { st with
            store := setColl st.store c (getColl st.store c ++ ds),
            nextId := st.nextId + ds.length }))
    ∧ (∀ e, st.storeFail = some e → fastInsert c ds st = (fail e, st))
    ∧ (fastInsert c ds st).2.cache = st.cache
    ∧ (fastInsert c ds st).2.buffers = st.buffers
    ∧ (∀ q, cacheLookup st.cache (c, q) = none → st.storeFail = none →
        (findDoc cfg c q (fastInsert c ds st).2).2.findCalls
          = (fastInsert c ds st).2.findCalls + 1) := by
  refine ⟨?_, ?_, ?_, ?_, ?_⟩
  · intro hfail
    rw [fastInsert, hfail]
  · intro e hfail
    rw [fastInsert, hfail]
  · cases h : st.storeFail <;> simp [fastInsert, h]
  · cases h : st.storeFail <;> simp [fastInsert, h]
  · intro q hlk hfail
    have hcache : (fastInsert c ds st).2.cache = st.cache := by
      cases h : st.storeFail <;> simp [fastInsert, h]
    have hsf : (fastInsert c ds st).2.storeFail = none := by
      rw [fastInsert, hfail]
    have hlk' : cacheLookup (fastInsert c ds st).2.cache (c, q) = none := by
      rw [hcache]; exact hlk
    rw [findDoc_miss cfg c q _ hlk' hsf]

theorem claim_C6_witness :
    (st0.storeFail = none ∧ cacheLookup st0.cache ("telemetry", []) = none)
    ∧ ((st0.storeFail = none →
        fastInsert "telemetry" [[("x", Value.vInt 1)]] st0 =
          (ok (.ids ((List.range 1).map (st0.nextId + ·))),
           { st0 with
              store := setColl st0.store "telemetry"
                (getColl st0.store "telemetry" ++ [[("x", Value.vInt 1)]]),
              nextId := st0.nextId + 1 }))
      ∧ (∀ e, st0.storeFail = some e →
          fastInsert "telemetry" [[("x", Value.vInt 1)]] st0 = (fail e, st0))
      ∧ (fastInsert "telemetry" [[("x", Value.vInt 1)]] st0).2.cache = st0.cache
      ∧ (fastInsert "telemetry" [[("x", Value.vInt 1)]] st0).2.buffers = st0.buffers
      ∧ (∀ q, cacheLookup st0.cache ("telemetry", q) = none →
          st0.storeFail = none →
          (findDoc ⟨10, 4⟩ "telemetry" q
            (fastInsert "telemetry" [[("x", Value.vInt 1)]] st0).2).2.findCalls
            = (fastInsert "telemetry" [[("x", Value.vInt 1)]] st0).2.findCalls + 1)) :=
  ⟨⟨rfl, rfl⟩,
   claim_C6_fast_mode_frame ⟨10, 4⟩ "telemetry" [[("x", Value.vInt 1)]] st0⟩

theorem flushCommit_none (c : String) (gen : List Doc) (st : St)
    (h : st.storeFail = none) :
    flushCommit c gen st =
      (ok (.ids ((List.range gen.length).map (st.nextId + ·))),
       ⟨setColl st.store c (getColl st.store c ++ gen),
        cacheInvalidate st.cache c, st.buffers, st.findCalls, st.now,
        st.nextId + gen.length, none, st.agg⟩) := by
  rw [flushCommit, h]

/-- C8: flush is all-or-nothing per buffer generation under concurrency:
the swap atomically empties the buffer, the swapped-out generation (the
whole pre-flush buffer) is committed in one bulk insert, and every append
arriving between the swap and the commit lands in the next buffer
generation — nothing is lost or inserted twice. -/
theorem claim_C8_flush_generation (c : String) (A : List Doc) (st : St)
    (hfail : st.storeFail = none) :
    (flushSwap c st).1 = st.buffers c
    ∧ (flushSwap c st).2.buffers c = []
    ∧ getColl (flushCommit c (flushSwap c st).1
        (appendBuffered c A (flushSwap c st).2)).2.store c
      = getColl st.store c ++ st.buffers c
    ∧ (flushCommit c (flushSwap c st).1
        (appendBuffered c A (flushSwap c st).2)).2.buffers c = A
    ∧ (flushCommit c (flushSwap c st).1
        (appendBuffered c A (flushSwap c st).2)).1.success = true := by
  have hsf : (appendBuffered c A (flushSwap c st).2).storeFail = none := hfail
  have hc := flushCommit_none c (flushSwap c st).1
    (appendBuffered c A (flushSwap c st).2) hsf
  refine ⟨rfl, by simp [flushSwap], ?_, ?_, ?_⟩
  · rw [hc]
    show getColl (setColl (appendBuffered c A (flushSwap c st).2).store c
      (getColl (appendBuffered c A (flushSwap c st).2).store c
        ++ st.buffers c)) c = getColl st.store c ++ st.buffers c
    rw [getColl_setColl_self]
    rfl
  · rw [hc]
    show (appendBuffered c A (flushSwap c st).2).buffers c = A
    simp [appendBuffered, flushSwap]
  · rw [hc]
    rfl

/-- Client state with one pending buffered document, used by the C8
witness. -/
def st8 : St :=
  { store := [("etl", [[("seed", Value.vInt 0)]])]
    cache := []
    buffers := fun c => if c = "etl" then [[("a", Value.vInt 1)]] else []
    findCalls := 0
    now := 0
    nextId := 7
    storeFail := none
    agg := fun _ _ => [] }

theorem claim_C8_witness :
    st8.storeFail = none
    ∧ ((flushSwap "etl" st8).1 = st8.buffers "etl"
      ∧ (flushSwap "etl" st8).2.buffers "etl" = []
      ∧ getColl (flushCommit "etl" (flushSwap "etl" st8).1
          (appendBuffered "etl" [[("b", Value.vInt 2)]] (flushSwap "etl" st8).2)).2.store "etl"
        = getColl st8.store "etl" ++ st8.buffers "etl"
      ∧ (flushCommit "etl" (flushSwap "etl" st8).1
          (appendBuffered "etl" [[("b", Value.vInt 2)]] (flushSwap "etl" st8).2)).2.buffers "etl"
        = [[("b", Value.vInt 2)]]
      ∧ (flushCommit "etl" (flushSwap "etl" st8).1
          (appendBuffered "etl" [[("b", Value.vInt 2)]] (flushSwap "etl" st8).2)).1.success
        = true) :=
  ⟨rfl, claim_C8_flush_generation "etl" [[("b", Value.vInt 2)]] st8 rfl⟩

/-- C5: `aggregate` with a supplied limit returns at most that many entries:
the full pipeline is handed to the backing store and the returned list is
the client-side truncation of the full result afterwards. -/
theorem claim_C5_aggregation_cap (c : String) (p : List Value) (L : Nat)
    (st : St) (hfail : st.storeFail = none) :
    aggregateOp c p (some L) st = (ok (.docs ((st.agg c p).take L)), st)
    ∧ ((st.agg c p).take L).length ≤ L := by
  constructor
  · rw [aggregateOp, hfail]
  · exact (List.length_take L (st.agg c p)) ▸ Nat.min_le_left _ _

/-- Client state whose backing-store aggregation oracle produces five
groups, used by the C5 witness. -/
def st5 : St :=
  { st0 with
     agg := fun _ _ =>
       [[("g", Value.vInt 1)], [("g", Value.vInt 2)], [("g", Value.vInt 3)],
        [("g", Value.vInt 4)], [("g", Value.vInt 5)]] }

theorem claim_C5_witness :
    st5.storeFail = none
    ∧ (aggregateOp "sales" [] (some 2) st5
        = (ok (.docs ((st5.agg "sales" []).take 2)), st5)
      ∧ ((st5.agg "sales" []).take 2).length ≤ 2)
    ∧ ((st5.agg "sales" []).take 2).length = 2 :=
  ⟨rfl, claim_C5_aggregation_cap "sales" [] 2 st5 rfl, rfl⟩

/-- C10: inserting an empty list of documents succeeds immediately with an
envelope carrying `success = true`, an empty inserted-identifier list as
data and no error, in every insertion mode, without raising. -/
theorem claim_C10_insert_empty_list (cfg : Config) (c : String) (m : Mode)
    (st : St) :
    exec cfg (.insertDocuments c [] m) st
      = .ok (⟨true, some (.ids []), none⟩, st) := rfl

/-- A sequence of buffered-mode single-document inserts. -/
def enqueueAll (c : String) (ds : List Doc) (st : St) : List SafeResult × St :=
  match ds with
  | [] => ([], st)
  | d :: rest =>
    ((bufferedEnqueue c [d] st).1
        :: (enqueueAll c rest (bufferedEnqueue c [d] st).2).1,
     (enqueueAll c rest (bufferedEnqueue c [d] st).2).2)

theorem enqueueAll_frame (c : String) (ds : List Doc) (st : St) :
    (enqueueAll c ds st).2.store = st.store
    ∧ (enqueueAll c ds st).2.storeFail = st.storeFail
    ∧ (enqueueAll c ds st).2.buffers c = st.buffers c ++ ds := by
  induction ds generalizing st with
  | nil => exact ⟨rfl, rfl, by simp [enqueueAll]⟩
  | cons d rest ih =>
    obtain ⟨h1, h2, h3⟩ := ih (bufferedEnqueue c [d] st).2
    have hb : (bufferedEnqueue c [d] st).2.buffers c = st.buffers c ++ [d] := by
      simp [bufferedEnqueue]
    refine ⟨h1, h2, ?_⟩
    show (enqueueAll c rest (bufferedEnqueue c [d] st).2).2.buffers c
      = st.buffers c ++ d :: rest
    rw [h3, hb, List.append_assoc, List.singleton_append]

theorem enqueueAll_results (c : String) (ds : List Doc) (st : St) :
    ∀ r ∈ (enqueueAll c ds st).1, r = ok (.count 1) := by
  induction ds generalizing st with
  | nil => intro r hr; cases hr
  | cons d rest ih =>
    intro r hr
    rw [enqueueAll] at hr
    rcases List.mem_cons.mp hr with h | h
    · rw [h]; rfl
    · exact ih _ r h

theorem countDocs_none (c : String) (q : Query) (st : St)
    (h : st.storeFail = none) :
    (countDocs c q st).1
      = ok (.count ((getColl st.store c).countP (queryMatches q))) := by
  rw [countDocs, h]

/-- C3: after a sequence of N buffered-mode inserts with no flush, the
enqueue envelopes all report success, `countDocuments` reflects no new
documents; after exactly one successful flush it reflects exactly N; and a
backing-store error surfaces only in the flush result, never in the enqueue
results. -/
theorem claim_C3_buffered_durability (c : String) (ds : List Doc) (st : St)
    (h0 : st.buffers c = []) :
    (∀ r ∈ (enqueueAll c ds st).1, r.success = true ∧ r.error = none)
    ∧ (countDocs c [] (enqueueAll c ds st).2).1 = (countDocs c [] st).1
    ∧ (st.storeFail = none →
        (countDocs c [] (flushBuffered c (enqueueAll c ds st).2).2).1
          = ok (.count ((getColl st.store c).length + ds.length)))
    ∧ (∀ e, st.storeFail = some e →
        (flushBuffered c (enqueueAll c ds st).2).1 = fail e) := by
  obtain ⟨hstore, hsf, hbuf⟩ := enqueueAll_frame c ds st
  rw [h0, List.nil_append] at hbuf
  refine ⟨?_, ?_, ?_, ?_⟩
  · intro r hr
    rw [enqueueAll_results c ds st r hr]
    exact ⟨rfl, rfl⟩
  · cases h : st.storeFail with
    | none => simp only [countDocs, hsf, hstore, h]
    | some e => simp only [countDocs, hsf, hstore, h]
  · intro hfail
    have hsf' : (flushSwap c (enqueueAll c ds st).2).2.storeFail = none := by
      show (enqueueAll c ds st).2.storeFail = none
      rw [hsf, hfail]
    rw [flushBuffered, flushCommit_none c _ _ hsf']
    rw [countDocs_none _ _ _ rfl]
    show ok (.count ((getColl (setColl
      (flushSwap c (enqueueAll c ds st).2).2.store c
      (getColl (flushSwap c (enqueueAll c ds st).2).2.store c
        ++ (flushSwap c (enqueueAll c ds st).2).1)) c).countP
          (queryMatches []))) = _
    rw [getColl_setColl_self, countP_queryMatches_nil, List.length_append]
    show ok (.count ((getColl (enqueueAll c ds st).2.store c).length
      + ((enqueueAll c ds st).2.buffers c).length)) = _
    rw [hstore, hbuf]
  · intro e hfail
    have hsf' : (flushSwap c (enqueueAll c ds st).2).2.storeFail = some e := by
      show (enqueueAll c ds st).2.storeFail = some e
      rw [hsf, hfail]
    rw [flushBuffered, flushCommit, hsf']

/-- Three plain documents, used by the C3 witness. -/
def docs3 : List Doc :=
  [[("n", Value.vInt 1)], [("n", Value.vInt 2)], [("n", Value.vInt 3)]]

theorem claim_C3_witness :
    st0.buffers "buffered_users" = []
    ∧ ((∀ r ∈ (enqueueAll "buffered_users" docs3 st0).1,
          r.success = true ∧ r.error = none)
      ∧ (countDocs "buffered_users" [] (enqueueAll "buffered_users" docs3 st0).2).1
          = (countDocs "buffered_users" [] st0).1
      ∧ (st0.storeFail = none →
          (countDocs "buffered_users" []
            (flushBuffered "buffered_users"
              (enqueueAll "buffered_users" docs3 st0).2).2).1
            = ok (.count ((getColl st0.store "buffered_users").length
                + docs3.length)))
      ∧ (∀ e, st0.storeFail = some e →
          (flushBuffered "buffered_users"
            (enqueueAll "buffered_users" docs3 st0).2).1 = fail e)) :=
  ⟨rfl, claim_C3_buffered_durability "buffered_users" docs3 st0 rfl⟩

/-! ## Cache-population discipline (C9) and envelope discipline (C4). -/

/-- Every key cached in the second cache was already cached in the first:
the operation that produced the second cache added no new entry. -/
def cacheSubsetP (cache cache' : CacheT) : Prop :=
  ∀ k e, cacheLookup cache' k = some e → ∃ e', cacheLookup cache k = some e'

theorem cacheSubsetP_self (cache : CacheT) : cacheSubsetP cache cache :=
  fun _ e h => ⟨e, h⟩

theorem cacheSubsetP_invalidate (cache : CacheT) (c : String) :
    cacheSubsetP cache (cacheInvalidate cache c) :=
  fun k e h => cacheLookup_filter_some cache _ k e h

theorem cacheSubsetP_nil (cache : CacheT) : cacheSubsetP cache [] :=
  fun k e h => by cases h

theorem insertDoc_cache (c : String) (d : Doc) (st : St) :
    (insertDoc c d st).2.cache = cacheInvalidate st.cache c := by
  cases h : st.storeFail <;> simp [insertDoc, h]

theorem insertManyDefault_cache (c : String) (ds : List Doc) (st : St) :
    (insertManyDefault c ds st).2.cache = cacheInvalidate st.cache c := by
  cases h : st.storeFail <;> simp [insertManyDefault, h]

theorem fastInsert_cache (c : String) (ds : List Doc) (st : St) :
    (fastInsert c ds st).2.cache = st.cache := by
  cases h : st.storeFail <;> simp [fastInsert, h]

theorem bufferedEnqueue_cache (c : String) (ds : List Doc) (st : St) :
    (bufferedEnqueue c ds st).2.cache = st.cache := rfl

theorem flushBuffered_cache (c : String) (st : St) :
    (flushBuffered c st).2.cache = cacheInvalidate st.cache c := by
  rw [flushBuffered]
  cases h : (flushSwap c st).2.storeFail <;> simp [flushCommit, h] <;> rfl

theorem updateDoc_cache (c : String) (q : Query) (u : Doc) (st : St) :
    (updateDoc c q u st).2.cache = cacheInvalidate st.cache c := by
  cases h : st.storeFail with
  | none =>
    simp only [updateDoc, h]
    split <;> rfl
  | some e => simp [updateDoc, h]

theorem updateManyDocs_cache (c : String) (q : Query) (u : Doc) (st : St) :
    (updateManyDocs c q u st).2.cache = cacheInvalidate st.cache c := by
  cases h : st.storeFail <;> simp [updateManyDocs, h]

theorem deleteDoc_cache (c : String) (q : Query) (st : St) :
    (deleteDoc c q st).2.cache = cacheInvalidate st.cache c := by
  cases h : st.storeFail with
  | none =>
    simp only [deleteDoc, h]
    split <;> rfl
  | some e => simp [deleteDoc, h]

theorem deleteManyDocs_cache (c : String) (q : Query) (st : St) :
    (deleteManyDocs c q st).2.cache = cacheInvalidate st.cache c := by
  cases h : st.storeFail <;> simp [deleteManyDocs, h]

theorem bulkWriteOp_cache (c : String) (ops : List BulkOp) (st : St) :
    (bulkWriteOp c ops st).2.cache = cacheInvalidate st.cache c := by
  cases h : st.storeFail <;> simp [bulkWriteOp, h]

theorem findDocs_state (c : String) (q : Query) (lim : Nat) (st : St) :
    (findDocs c q lim st).2 = st := by
  cases h : st.storeFail <;> simp [findDocs, h]

theorem aggregateOp_state (c : String) (p : List Value) (lim : Option Nat)
    (st : St) : (aggregateOp c p lim st).2 = st := by
  cases h : st.storeFail <;> simp [aggregateOp, h]

theorem countDocs_state (c : String) (q : Query) (st : St) :
    (countDocs c q st).2 = st := by
  cases h : st.storeFail <;> simp [countDocs, h]

theorem listColls_state (st : St) : (listColls st).2 = st := by
  cases h : st.storeFail <;> simp [listColls, h]

/-- Is the operation the single-document point-lookup read? -/
def isPointRead : COp → Bool
  | .findDocument _ _ => true
  | _ => false

/-- C9: only single-document point-lookup reads ever add entries to the
cache: any other operation that completes (inserts in every tier, updates,
deletes, multi-document finds, aggregations, counts, flushes, bulk writes,
cache clears) leaves the set of cached keys with no new entry. -/
theorem claim_C9_only_point_reads_populate (cfg : Config) (op : COp) (st : St)
    (h : isPointRead op = false) :
    ∀ env st', exec cfg op st = .ok (env, st') →
      cacheSubsetP st.cache st'.cache := by
  intro env st' hok
  cases op with
  | insertDocument c v =>
    cases hv : toDoc v with
    | none => rw [exec, hv] at hok; cases hok
    | some d =>
      rw [exec, hv] at hok
      injection hok with h1
      have hst : (insertDoc c d st).2 = st' := congrArg Prod.snd h1
      subst hst
      rw [insertDoc_cache]
      exact cacheSubsetP_invalidate st.cache c
  | insertDocuments c vs m =>
    cases hv : toDocs vs with
    | none => rw [exec, hv] at hok; cases hok
    | some ds =>
      simp only [exec, hv] at hok
      by_cases he : ds.isEmpty
      · rw [if_pos he] at hok
        injection hok with h1
        have hst : st = st' := congrArg Prod.snd h1
        subst hst
        exact cacheSubsetP_self st.cache
      · rw [if_neg he] at hok
        cases m with
        | default =>
          injection hok with h1
          have hst : (insertManyDefault c ds st).2 = st' := congrArg Prod.snd h1
          subst hst
          rw [insertManyDefault_cache]
          exact cacheSubsetP_invalidate st.cache c
        | fast =>
          injection hok with h1
          have hst : (fastInsert c ds st).2 = st' := congrArg Prod.snd h1
          subst hst
          rw [fastInsert_cache]
          exact cacheSubsetP_self st.cache
        | buffered =>
          injection hok with h1
          have hst : (bufferedEnqueue c ds st).2 = st' := congrArg Prod.snd h1
          subst hst
          rw [bufferedEnqueue_cache]
          exact cacheSubsetP_self st.cache
  | flushBufferedInserts c =>
    rw [exec] at hok
    injection hok with h1
    have hst : (flushBuffered c st).2 = st' := congrArg Prod.snd h1
    subst hst
    rw [flushBuffered_cache]
    exact cacheSubsetP_invalidate st.cache c
  | findDocument c q => cases h
  | findDocuments c q lim =>
    rw [exec] at hok
    injection hok with h1
    have hst : (findDocs c q lim st).2 = st' := congrArg Prod.snd h1
    subst hst
    rw [findDocs_state]
    exact cacheSubsetP_self st.cache
  | updateDocument c q u =>
    cases hv : toDoc u with
    | none => rw [exec, hv] at hok; cases hok
    | some ud =>
      rw [exec, hv] at hok
      injection hok with h1
      have hst : (updateDoc c q ud st).2 = st' := congrArg Prod.snd h1
      subst hst
      rw [updateDoc_cache]
      exact cacheSubsetP_invalidate st.cache c
  | updateDocuments c q u =>
    cases hv : toDoc u with
    | none => rw [exec, hv] at hok; cases hok
    | some ud =>
      rw [exec, hv] at hok
      injection hok with h1
      have hst : (updateManyDocs c q ud st).2 = st' := congrArg Prod.snd h1
      subst hst
      rw [updateManyDocs_cache]
      exact cacheSubsetP_invalidate st.cache c
  | deleteDocument c q =>
    rw [exec] at hok
    injection hok with h1
    have hst : (deleteDoc c q st).2 = st' := congrArg Prod.snd h1
    subst hst
    rw [deleteDoc_cache]
    exact cacheSubsetP_invalidate st.cache c
  | deleteDocuments c q =>
    rw [exec] at hok
    injection hok with h1
    have hst : (deleteManyDocs c q st).2 = st' := congrArg Prod.snd h1
    subst hst
    rw [deleteManyDocs_cache]
    exact cacheSubsetP_invalidate st.cache c
  | bulkWrite c ops =>
    cases hv : toBulks ops with
    | none => rw [exec, hv] at hok; cases hok
    | some bs =>
      rw [exec, hv] at hok
      injection hok with h1
      have hst : (bulkWriteOp c bs st).2 = st' := congrArg Prod.snd h1
      subst hst
      rw [bulkWriteOp_cache]
      exact cacheSubsetP_invalidate st.cache c
  | aggregate c p lim =>
    rw [exec] at hok
    injection hok with h1
    have hst : (aggregateOp c p lim st).2 = st' := congrArg Prod.snd h1
    subst hst
    rw [aggregateOp_state]
    exact cacheSubsetP_self st.cache
  | countDocuments c q =>
    rw [exec] at hok
    injection hok with h1
    have hst : (countDocs c q st).2 = st' := congrArg Prod.snd h1
    subst hst
    rw [countDocs_state]
    exact cacheSubsetP_self st.cache
  | listCollections =>
    rw [exec] at hok
    injection hok with h1
    have hst : (listColls st).2 = st' := congrArg Prod.snd h1
    subst hst
    rw [listColls_state]
    exact cacheSubsetP_self st.cache
  | clearCache =>
    rw [exec] at hok
    injection hok with h1
    have hst : (clearCacheOp st).2 = st' := congrArg Prod.snd h1
    subst hst
    exact cacheSubsetP_nil st.cache

theorem claim_C9_witness :
    isPointRead (.deleteDocuments "b" []) = false
    ∧ ∃ e', cacheLookup st7.cache ("pets", []) = some e' :=
  ⟨rfl,
   claim_C9_only_point_reads_populate ⟨10, 4⟩ (.deleteDocuments "b" []) st7
     rfl (deleteManyDocs "b" [] st7).1 (deleteManyDocs "b" [] st7).2 rfl
     ("pets", []) (none, 0) rfl⟩

/-- The envelope invariant: the operation succeeded exactly when no error is
recorded. -/
def envInv (r : SafeResult) : Prop := r.success = true ↔ r.error = none

theorem envInv_ok (d : ResData) : envInv (ok d) := by simp [envInv, ok]

theorem envInv_okEmpty : envInv okEmpty := by simp [envInv, okEmpty]

theorem envInv_fail (e : String) : envInv (fail e) := by simp [envInv, fail]

theorem envInv_readResult (r : Option Doc) : envInv (readResult r) := by
  cases r with
  | none => exact envInv_okEmpty
  | some d => exact envInv_ok _

theorem envInv_findDoc (cfg : Config) (c : String) (q : Query) (st : St) :
    envInv (findDoc cfg c q st).1 := by
  rw [findDoc]
  cases hg : cacheGet cfg st.cache (c, q) st.now with
  | some r => exact envInv_readResult r
  | none =>
    cases hf : st.storeFail with
    | some e => exact envInv_fail e
    | none => exact envInv_readResult _

theorem envInv_findDocs (c : String) (q : Query) (lim : Nat) (st : St) :
    envInv (findDocs c q lim st).1 := by
  rw [findDocs]
  cases hf : st.storeFail with
  | some e => exact envInv_fail e
  | none => exact envInv_ok _

theorem envInv_insertDoc (c : String) (d : Doc) (st : St) :
    envInv (insertDoc c d st).1 := by
  rw [insertDoc]
  cases hf : st.storeFail with
  | some e => exact envInv_fail e
  | none => exact envInv_ok _

theorem envInv_insertManyDefault (c : String) (ds : List Doc) (st : St) :
    envInv (insertManyDefault c ds st).1 := by
  rw [insertManyDefault]
  cases hf : st.storeFail with
  | some e => exact envInv_fail e
  | none => exact envInv_ok _

theorem envInv_fastInsert (c : String) (ds : List Doc) (st : St) :
    envInv (fastInsert c ds st).1 := by
  rw [fastInsert]
  cases hf : st.storeFail with
  | some e => exact envInv_fail e
  | none => exact envInv_ok _

theorem envInv_bufferedEnqueue (c : String) (ds : List Doc) (st : St) :
    envInv (bufferedEnqueue c ds st).1 := envInv_ok _

theorem envInv_flushBuffered (c : String) (st : St) :
    envInv (flushBuffered c st).1 := by
  rw [flushBuffered, flushCommit]
  cases hf : (flushSwap c st).2.storeFail with
  | some e => exact envInv_fail e
  | none => exact envInv_ok _

theorem envInv_updateDoc (c : String) (q : Query) (u : Doc) (st : St) :
    envInv (updateDoc c q u st).1 := by
  rw [updateDoc]
  cases hf : st.storeFail with
  | some e => exact envInv_fail e
  | none =>
    cases hu : updateFirst (getColl st.store c) q u with
    | some docs' => exact envInv_ok _
    | none => exact envInv_fail _

theorem envInv_updateManyDocs (c : String) (q : Query) (u : Doc) (st : St) :
    envInv (updateManyDocs c q u st).1 := by
  rw [updateManyDocs]
  cases hf : st.storeFail with
  | some e => exact envInv_fail e
  | none => exact envInv_ok _

theorem envInv_deleteDoc (c : String) (q : Query) (st : St) :
    envInv (deleteDoc c q st).1 := by
  rw [deleteDoc]
  cases hf : st.storeFail with
  | some e => exact envInv_fail e
  | none =>
    cases hd : deleteFirst (getColl st.store c) q with
    | some docs' => exact envInv_ok _
    | none => exact envInv_fail _

theorem envInv_deleteManyDocs (c : String) (q : Query) (st : St) :
    envInv (deleteManyDocs c q st).1 := by
  rw [deleteManyDocs]
  cases hf : st.storeFail with
  | some e => exact envInv_fail e
  | none => exact envInv_ok _

theorem envInv_bulkWriteOp (c : String) (ops : List BulkOp) (st : St) :
    envInv (bulkWriteOp c ops st).1 := by
  rw [bulkWriteOp]
  cases hf : st.storeFail with
  | some e => exact envInv_fail e
  | none => exact envInv_ok _

theorem envInv_aggregateOp (c : String) (p : List Value) (lim : Option Nat)
    (st : St) : envInv (aggregateOp c p lim st).1 := by
  cases hf : st.storeFail with
  | some e => simp only [aggregateOp.eq_def, hf]; exact envInv_fail e
  | none => simp only [aggregateOp.eq_def, hf]; exact envInv_ok _

theorem envInv_countDocs (c : String) (q : Query) (st : St) :
    envInv (countDocs c q st).1 := by
  rw [countDocs]
  cases hf : st.storeFail with
  | some e => exact envInv_fail e
  | none => exact envInv_ok _

theorem envInv_listColls (st : St) : envInv (listColls st).1 := by
  rw [listColls]
  cases hf : st.storeFail with
  | some e => exact envInv_fail e
  | none => exact envInv_ok _

/-- C4: every public Client operation either returns an envelope satisfying
`success = true` iff `error = none` — every expected failure category
(backing-store error/timeout, not-found on single update/delete, partial
bulk failure, cache misses, empty results) is captured in the envelope and
never thrown past the Client boundary — or, exactly when the call is
programmer misuse (a non-mapping document argument), it propagates as an
exception. -/
theorem claim_C4_envelope_discipline (cfg : Config) (op : COp) (st : St) :
    match exec cfg op st with
    | .ok p => envInv p.1 ∧ ¬ misuseOp op
    | .error _ => misuseOp op := by
  cases op with
  | insertDocument c v =>
    cases hv : toDoc v with
    | none => simp only [exec, hv]; exact hv
    | some d =>
      simp only [exec, hv]
      exact ⟨envInv_insertDoc c d st, by simp [misuseOp, hv]⟩
  | insertDocuments c vs m =>
    cases hv : toDocs vs with
    | none => simp only [exec, hv]; exact hv
    | some ds =>
      simp only [exec, hv]
      by_cases he : ds.isEmpty
      · rw [if_pos he]
        exact ⟨envInv_ok _, by simp [misuseOp, hv]⟩
      · rw [if_neg he]
        cases m with
        | default =>
          exact ⟨envInv_insertManyDefault c ds st, by simp [misuseOp, hv]⟩
        | fast => exact ⟨envInv_fastInsert c ds st, by simp [misuseOp, hv]⟩
        | buffered =>
          exact ⟨envInv_bufferedEnqueue c ds st, by simp [misuseOp, hv]⟩
  | flushBufferedInserts c =>
    simp only [exec]
    exact ⟨envInv_flushBuffered c st, by simp [misuseOp]⟩
  | findDocument c q =>
    simp only [exec]
    exact ⟨envInv_findDoc cfg c q st, by simp [misuseOp]⟩
  | findDocuments c q lim =>
    simp only [exec]
    exact ⟨envInv_findDocs c q lim st, by simp [misuseOp]⟩
  | updateDocument c q u =>
    cases hv : toDoc u with
    | none => simp only [exec, hv]; exact hv
    | some ud =>
      simp only [exec, hv]
      exact ⟨envInv_updateDoc c q ud st, by simp [misuseOp, hv]⟩
  | updateDocuments c q u =>
    cases hv : toDoc u with
    | none => simp only [exec, hv]; exact hv
    | some ud =>
      simp only [exec, hv]
      exact ⟨envInv_updateManyDocs c q ud st, by simp [misuseOp, hv]⟩
  | deleteDocument c q =>
    simp only [exec]
    exact ⟨envInv_deleteDoc c q st, by simp [misuseOp]⟩
  | deleteDocuments c q =>
    simp only [exec]
    exact ⟨envInv_deleteManyDocs c q st, by simp [misuseOp]⟩
  | bulkWrite c ops =>
    cases hv : toBulks ops with
    | none => simp only [exec, hv]; exact hv
    | some bs =>
      simp only [exec, hv]
      exact ⟨envInv_bulkWriteOp c bs st, by simp [misuseOp, hv]⟩
  | aggregate c p lim =>
    simp only [exec]
    exact ⟨envInv_aggregateOp c p lim st, by simp [misuseOp]⟩
  | countDocuments c q =>
    simp only [exec]
    exact ⟨envInv_countDocs c q st, by simp [misuseOp]⟩
  | listCollections =>
    simp only [exec]
    exact ⟨envInv_listColls st, by simp [misuseOp]⟩
  | clearCache =>
    simp only [exec]
    exact ⟨envInv_okEmpty, by simp [misuseOp]⟩

theorem claim_C4_witness :
    (match exec ⟨10, 4⟩ (.insertDocument "pets" (Value.vStr "oops")) st0 with
      | .ok p => envInv p.1 ∧ ¬ misuseOp (.insertDocument "pets" (Value.vStr "oops"))
      | .error _ => misuseOp (.insertDocument "pets" (Value.vStr "oops"))) :=
  claim_C4_envelope_discipline ⟨10, 4⟩
    (.insertDocument "pets" (Value.vStr "oops")) st0

end ZMongo
